import Mathlib

/-!
Verification development for the `turntie` repository
(`crates/turntie/src/lib.rs`): a shallow embedding of the endpoint
descriptor codec (`Data::serialize` / `Data::deserialize`), the rendezvous
coordinator (`tie`), the channel adapter (`TurnTie`) and the resumption
constructor (`connect`), together with theorems settling the frozen claims.

Machine integers are modelled as `Nat` with explicit bounds; Rust strings
and byte vectors are modelled as `List Nat` of byte values; fallible code
returns `Option` / `Except`.
-/

namespace Turntie

/-! ## Socket addresses

`std::net::SocketAddr` as serialized by serde's non-human-readable impl:
a V4 address is (4 ip octets, port), a V6 address is (16 ip octets, port).
-/

inductive SockAddr where
  | v4 (ip : List Nat) (port : Nat)
  | v6 (ip : List Nat) (port : Nat)
deriving DecidableEq

/-- A `SockAddr` that corresponds to an actual Rust `SocketAddr` value:
correct octet count, octets are bytes, port is a `u16`. -/
def SockAddr.Valid : SockAddr → Prop
  | .v4 ip port => ip.length = 4 ∧ (∀ b ∈ ip, b < 256) ∧ port < 65536
  | .v6 ip port => ip.length = 16 ∧ (∀ b ∈ ip, b < 256) ∧ port < 65536

instance (s : SockAddr) : Decidable s.Valid :=
  match s with
  | .v4 _ _ => inferInstanceAs (Decidable (_ ∧ _ ∧ _))
  | .v6 _ _ => inferInstanceAs (Decidable (_ ∧ _ ∧ _))

/-! ## Base64 (standard alphabet with padding)

Model of the `base64` crate's `STANDARD` engine as used by
`Data::serialize` / `Data::deserialize`: encode emits canonical padding,
decode requires canonical padding and rejects nonzero trailing bits.
-/

def base64Alphabet : List Char :=
  ['A','B','C','D','E','F','G','H','I','J','K','L','M','N','O','P','Q','R',
   'S','T','U','V','W','X','Y','Z','a','b','c','d','e','f','g','h','i','j',
   'k','l','m','n','o','p','q','r','s','t','u','v','w','x','y','z','0','1',
   '2','3','4','5','6','7','8','9','+','/']

/-- Sextet value (0..63) to base64 character. -/
def b64Chr (n : Nat) : Char := base64Alphabet.getD n '?'

/-- Base64 character back to its sextet value; `none` for characters
outside the alphabet (including the padding character). -/
def b64Val (c : Char) : Option Nat := base64Alphabet.indexOf? c

/-- Encoding step of `base64::engine::general_purpose::STANDARD.encode`:
groups of three bytes become four characters, with `=` padding for a
final group of one or two bytes. -/
def b64Encode : List Nat → List Char
  | [] => []
  | [a] => [b64Chr (a / 4), b64Chr (a % 4 * 16), '=', '=']
  | [a, b] => [b64Chr (a / 4), b64Chr (a % 4 * 16 + b / 16), b64Chr (b % 16 * 4), '=']
  | a :: b :: c :: rest =>
      b64Chr (a / 4) :: b64Chr (a % 4 * 16 + b / 16) ::
      b64Chr (b % 16 * 4 + c / 64) :: b64Chr (c % 64) :: b64Encode rest

/-- Decoding of a final four-character base64 group: canonical padding
placement is enforced and nonzero trailing bits are rejected, as the
`STANDARD` engine's default decode configuration does. -/
def b64DecodeLast (p q r s : Char) : Option (List Nat) :=
  if r = '=' then
    if s = '=' then do
      let x ← b64Val p
      let y ← b64Val q
      if y % 16 = 0 then some [x * 4 + y / 16] else none
    else none
  else if s = '=' then do
    let x ← b64Val p
    let y ← b64Val q
    let z ← b64Val r
    if z % 4 = 0 then some [x * 4 + y / 16, y % 16 * 16 + z / 4] else none
  else do
    let x ← b64Val p
    let y ← b64Val q
    let z ← b64Val r
    let w ← b64Val s
    some [x * 4 + y / 16, y % 16 * 16 + z / 4, z % 4 * 64 + w]

/-- Decoding step of the `STANDARD` engine: input length must be a
multiple of four, `=` may appear only in the final group. -/
def b64Decode : List Char → Option (List Nat)
  | [] => some []
  | [p, q, r, s] => b64DecodeLast p q r s
  | p :: q :: r :: s :: t :: rest => do
      let x ← b64Val p
      let y ← b64Val q
      let z ← b64Val r
      let w ← b64Val s
      let tail ← b64Decode (t :: rest)
      some ((x * 4 + y / 16) :: (y % 16 * 16 + z / 4) :: (z % 4 * 64 + w) :: tail)
  | _ => none

theorem b64Val_b64Chr (n : Nat) (h : n < 64) : b64Val (b64Chr n) = some n := by
  revert h; revert n; decide

theorem someBind {α β : Type} (a : α) (f : α → Option β) :
    some a >>= f = f a := rfl

theorem b64Chr_ne_pad (n : Nat) : b64Chr n ≠ '=' := by
  by_cases h : n < 64
  · revert h; revert n; decide
  · unfold b64Chr
    rw [List.getD_eq_default]
    · decide
    · simp only [base64Alphabet, List.length]; omega

theorem b64Encode_ne_nil (a : Nat) (l : List Nat) : b64Encode (a :: l) ≠ [] := by
  match l with
  | [] => simp [b64Encode]
  | [_] => simp [b64Encode]
  | _ :: _ :: _ => simp [b64Encode]

/-- Round trip of the base64 layer on byte lists. -/
theorem b64Decode_b64Encode (bs : List Nat) (h : ∀ x ∈ bs, x < 256) :
    b64Decode (b64Encode bs) = some bs := by
  induction bs using b64Encode.induct with
  | case1 => rfl
  | case2 a =>
    have ha : a < 256 := h a (by simp)
    have e1 := b64Val_b64Chr (a / 4) (by omega)
    have e2 := b64Val_b64Chr (a % 4 * 16) (by omega)
    have hc : a % 4 * 16 % 16 = 0 := by omega
    simp [b64Encode, b64Decode, b64DecodeLast, e1, e2, hc]
    omega
  | case3 a b =>
    have ha : a < 256 := h a (by simp)
    have hb : b < 256 := h b (by simp)
    have e1 := b64Val_b64Chr (a / 4) (by omega)
    have e2 := b64Val_b64Chr (a % 4 * 16 + b / 16) (by omega)
    have e3 := b64Val_b64Chr (b % 16 * 4) (by omega)
    have hc : b % 16 * 4 % 4 = 0 := by omega
    simp [b64Encode, b64Decode, b64DecodeLast, b64Chr_ne_pad, e1, e2, e3, hc]
    omega
  | case4 a b c rest ih =>
    have ha : a < 256 := h a (by simp)
    have hb : b < 256 := h b (by simp)
    have hc : c < 256 := h c (by simp)
    have hrest : ∀ x ∈ rest, x < 256 := fun x hx => h x (by simp [hx])
    have e1 := b64Val_b64Chr (a / 4) (by omega)
    have e2 := b64Val_b64Chr (a % 4 * 16 + b / 16) (by omega)
    have e3 := b64Val_b64Chr (b % 16 * 4 + c / 64) (by omega)
    have e4 := b64Val_b64Chr (c % 64) (by omega)
    match rest with
    | [] =>
      simp [b64Encode, b64Decode, b64DecodeLast, b64Chr_ne_pad, e1, e2, e3, e4]
      omega
    | r0 :: rs =>
      have hne := b64Encode_ne_nil r0 rs
      match hEnc : b64Encode (r0 :: rs) with
      | [] => exact absurd hEnc hne
      | u :: us =>
        have hdec : b64Decode (u :: us) = some (r0 :: rs) := by
          rw [← hEnc]; exact ih hrest
        simp [b64Encode, hEnc, b64Decode, e1, e2, e3, e4, hdec]
        omega

/-! ## Compression layer

Modelled from the spec: the compression step of `Data::serialize` /
`Data::deserialize` is the external `flate2` crate (zlib deflate), which the
spec excludes and describes as "a generic reversible compression transform"
(§4.2) inside the zlib container. It is modelled here as the zlib container
(CMF/FLG header, Adler-32 trailer) around an uncompressed payload:
compression is reversible, and decompression fails on malformed input.
-/

/-- One step of the Adler-32 checksum state update. -/
def adlerStep (p : Nat × Nat) (x : Nat) : Nat × Nat :=
  let s1 := (p.1 + x) % 65521
  (s1, (p.2 + s1) % 65521)

/-- Adler-32 checksum of a byte list, as in the zlib trailer. -/
def adler32 (b : List Nat) : Nat :=
  let p := b.foldl adlerStep (1, 0)
  p.2 * 65536 + p.1

/-- Big-endian 32-bit byte decomposition (zlib stores Adler-32 big-endian). -/
def be32 (n : Nat) : List Nat :=
  [n / 16777216 % 256, n / 65536 % 256, n / 256 % 256, n % 256]

/-- Model of the compression step of `Data::serialize`
(`ZlibEncoder::write_all` + `finish`): zlib header `0x78 0x9c`, payload,
Adler-32 trailer. -/
def zlibCompress (b : List Nat) : List Nat :=
  120 :: 156 :: (b ++ be32 (adler32 b))

/-- Model of the decompression step of `Data::deserialize`
(`ZlibDecoder::write_all` + `finish`): checks the zlib header and the
Adler-32 trailer, returns the payload; `none` models a decompression
error. -/
def zlibDecompress (z : List Nat) : Option (List Nat) :=
  match z with
  | 120 :: 156 :: rest =>
    if 4 ≤ rest.length then
      let payload := rest.take (rest.length - 4)
      if rest.drop (rest.length - 4) = be32 (adler32 payload) then some payload
      else none
    else none
  | _ => none

/-- Round trip of the compression layer. -/
theorem zlibDecompress_zlibCompress (b : List Nat) :
    zlibDecompress (zlibCompress b) = some b := by
  have hlen : (b ++ be32 (adler32 b)).length = b.length + 4 := by
    simp [be32]
  have htake : (b ++ be32 (adler32 b)).take b.length = b :=
    List.take_left' rfl
  have hdrop : (b ++ be32 (adler32 b)).drop b.length = be32 (adler32 b) :=
    List.drop_left' rfl
  simp only [zlibCompress, zlibDecompress, hlen, Nat.add_sub_cancel, htake,
    hdrop, if_pos (by omega : 4 ≤ b.length + 4), if_pos rfl, if_true]

/-- Every byte of the compressed form is a byte value, provided the payload
consists of byte values. -/
theorem zlibCompress_bytes (b : List Nat) (h : ∀ x ∈ b, x < 256) :
    ∀ x ∈ zlibCompress b, x < 256 := by
  intro x hx
  simp only [zlibCompress, List.mem_cons, List.mem_append] at hx
  rcases hx with rfl | rfl | hx | hx
  · omega
  · omega
  · exact h x hx
  · simp only [be32, List.mem_cons, List.not_mem_nil, or_false] at hx
    rcases hx with rfl | rfl | rfl | rfl <;> omega

/-! ## Bincode layer

`bincode::serialize` / `bincode::deserialize` with bincode 1.x's default
configuration (as used by `Data::serialize` / `Data::deserialize`):
little-endian, fixed-width integer encoding (`u64` collection lengths,
`u32` enum variant tags), and — for `bincode::deserialize` — trailing
bytes permitted after the decoded value.

serde serializes a `SocketAddr` (non-human-readable) as a `u32` variant
tag (0 for V4, 1 for V6) followed by the ip octets and the `u16` port;
a `String` or `Vec<u8>` as a `u64` length followed by the bytes; a struct
as the concatenation of its fields.
-/

def encU16 (n : Nat) : List Nat := [n % 256, n / 256 % 256]

def encU32 (n : Nat) : List Nat :=
  [n % 256, n / 256 % 256, n / 65536 % 256, n / 16777216 % 256]

def encU64 (n : Nat) : List Nat :=
  [n % 256, n / 256 % 256, n / 65536 % 256, n / 16777216 % 256,
   n / 4294967296 % 256, n / 1099511627776 % 256,
   n / 281474976710656 % 256, n / 72057594037927936 % 256]

/-- Length-prefixed byte sequence (`String` / `Vec<u8>` encoding). -/
def encBytes (b : List Nat) : List Nat := encU64 b.length ++ b

/-- serde encoding of `SocketAddr`: variant tag, ip octets, port. -/
def encSockAddr : SockAddr → List Nat
  | .v4 ip port => encU32 0 ++ ip ++ encU16 port
  | .v6 ip port => encU32 1 ++ ip ++ encU16 port

def parseU16 : List Nat → Option (Nat × List Nat)
  | a :: b :: rest => some (a + 256 * b, rest)
  | _ => none

def parseU32 : List Nat → Option (Nat × List Nat)
  | a :: b :: c :: d :: rest =>
      some (a + 256 * b + 65536 * c + 16777216 * d, rest)
  | _ => none

def parseU64 : List Nat → Option (Nat × List Nat)
  | a :: b :: c :: d :: e :: f :: g :: i :: rest =>
      some (a + 256 * b + 65536 * c + 16777216 * d + 4294967296 * e +
        1099511627776 * f + 281474976710656 * g + 72057594037927936 * i, rest)
  | _ => none

def parseExact (n : Nat) (l : List Nat) : Option (List Nat × List Nat) :=
  if n ≤ l.length then some (l.take n, l.drop n) else none

def parseBytes (l : List Nat) : Option (List Nat × List Nat) := do
  let (n, rest) ← parseU64 l
  parseExact n rest

def parseSockAddr (l : List Nat) : Option (SockAddr × List Nat) := do
  let (tag, rest) ← parseU32 l
  if tag = 0 then do
    let (ip, rest) ← parseExact 4 rest
    let (port, rest) ← parseU16 rest
    some (.v4 ip port, rest)
  else if tag = 1 then do
    let (ip, rest) ← parseExact 16 rest
    let (port, rest) ← parseU16 rest
    some (.v6 ip port, rest)
  else none

/-! ## The endpoint descriptor (`struct Data`) and its codec -/

/-- `struct Data` from `crates/turntie/src/lib.rs`. Strings and the
mobility ticket are byte sequences. -/
structure Data where
  turn_server : SockAddr
  username : List Nat
  password : List Nat
  realm : List Nat
  nonce : List Nat
  mobility_ticket : List Nat
  counterpart : SockAddr
deriving DecidableEq

/-- A byte sequence that corresponds to an actual Rust `Vec<u8>` /
`String` value: byte-valued entries, length representable as `u64`. -/
def ByteSeq (l : List Nat) : Prop :=
  (∀ x ∈ l, x < 256) ∧ l.length < 18446744073709551616

instance (l : List Nat) : Decidable (ByteSeq l) :=
  inferInstanceAs (Decidable (_ ∧ _))

/-- A `Data` value that corresponds to an actual Rust `Data` value. -/
def Data.Valid (d : Data) : Prop :=
  d.turn_server.Valid ∧ ByteSeq d.username ∧ ByteSeq d.password ∧
  ByteSeq d.realm ∧ ByteSeq d.nonce ∧ ByteSeq d.mobility_ticket ∧
  d.counterpart.Valid

instance (d : Data) : Decidable d.Valid :=
  inferInstanceAs (Decidable (_ ∧ _ ∧ _ ∧ _ ∧ _ ∧ _ ∧ _))

/-- `bincode::serialize(&Data)`: the fields in declaration order. -/
def bincodeSer (d : Data) : List Nat :=
  encSockAddr d.turn_server ++ encBytes d.username ++ encBytes d.password ++
  encBytes d.realm ++ encBytes d.nonce ++ encBytes d.mobility_ticket ++
  encSockAddr d.counterpart

/-- `bincode::deserialize::<Data>`: the fields in declaration order,
returning the remaining input (bincode's `deserialize` permits trailing
bytes). -/
def bincodeDe (l : List Nat) : Option (Data × List Nat) := do
  let (turn_server, rest) ← parseSockAddr l
  let (username, rest) ← parseBytes rest
  let (password, rest) ← parseBytes rest
  let (realm, rest) ← parseBytes rest
  let (nonce, rest) ← parseBytes rest
  let (mobility_ticket, rest) ← parseBytes rest
  let (counterpart, rest) ← parseSockAddr rest
  some (⟨turn_server, username, password, realm, nonce, mobility_ticket,
    counterpart⟩, rest)

/-- `Data::serialize`: bincode, then compress, then base64. -/
def Data.serialize (d : Data) : List Char :=
  b64Encode (zlibCompress (bincodeSer d))

/-- `Data::deserialize`: base64 decode, then decompress, then bincode
decode (ignoring any trailing bytes); any stage failing fails the whole
decode. -/
def Data.deserialize (x : List Char) : Option Data := do
  let z ← b64Decode x
  let b ← zlibDecompress z
  let (d, _) ← bincodeDe b
  some d

/-! ### Parser/encoder round trips -/

theorem parseU16_enc (n : Nat) (r : List Nat) (h : n < 65536) :
    parseU16 (encU16 n ++ r) = some (n, r) := by
  simp only [encU16, List.cons_append, List.nil_append, parseU16,
    Option.some.injEq, Prod.mk.injEq]
  exact ⟨by omega, trivial⟩

theorem parseU32_enc (n : Nat) (r : List Nat) (h : n < 4294967296) :
    parseU32 (encU32 n ++ r) = some (n, r) := by
  simp only [encU32, List.cons_append, List.nil_append, parseU32,
    Option.some.injEq, Prod.mk.injEq]
  exact ⟨by omega, trivial⟩

theorem parseU64_enc (n : Nat) (r : List Nat)
    (h : n < 18446744073709551616) :
    parseU64 (encU64 n ++ r) = some (n, r) := by
  simp only [encU64, List.cons_append, List.nil_append, parseU64,
    Option.some.injEq, Prod.mk.injEq]
  exact ⟨by omega, trivial⟩

theorem parseExact_append (l r : List Nat) :
    parseExact l.length (l ++ r) = some (l, r) := by
  have hc : l.length ≤ (l ++ r).length := by simp
  rw [parseExact, if_pos hc, List.take_left' rfl, List.drop_left' rfl]

theorem parseBytes_enc (b r : List Nat)
    (h : b.length < 18446744073709551616) :
    parseBytes (encBytes b ++ r) = some (b, r) := by
  rw [encBytes, List.append_assoc, parseBytes, parseU64_enc _ _ h]
  simp only [someBind]
  exact parseExact_append b r

theorem parseSockAddr_enc (s : SockAddr) (r : List Nat) (h : s.Valid) :
    parseSockAddr (encSockAddr s ++ r) = some (s, r) := by
  match s with
  | .v4 ip port =>
    obtain ⟨hlen, -, hport⟩ := h
    have h32 := parseU32_enc 0 (ip ++ (encU16 port ++ r)) (by omega)
    have hex : parseExact 4 (ip ++ (encU16 port ++ r)) =
        some (ip, encU16 port ++ r) := by
      rw [← hlen]; exact parseExact_append ip (encU16 port ++ r)
    have h16 := parseU16_enc port r hport
    simp [encSockAddr, parseSockAddr, h32, hex, h16, someBind]
  | .v6 ip port =>
    obtain ⟨hlen, -, hport⟩ := h
    have h32 := parseU32_enc 1 (ip ++ (encU16 port ++ r)) (by omega)
    have hex : parseExact 16 (ip ++ (encU16 port ++ r)) =
        some (ip, encU16 port ++ r) := by
      rw [← hlen]; exact parseExact_append ip (encU16 port ++ r)
    have h16 := parseU16_enc port r hport
    simp [encSockAddr, parseSockAddr, h32, hex, h16, someBind]

/-- Round trip of the bincode layer, with arbitrary trailing bytes
preserved as the remainder. -/
theorem bincodeDe_bincodeSer (d : Data) (h : d.Valid) (r : List Nat) :
    bincodeDe (bincodeSer d ++ r) = some (d, r) := by
  obtain ⟨hts, ⟨-, hu⟩, ⟨-, hp⟩, ⟨-, hre⟩, ⟨-, hn⟩, ⟨-, hm⟩, hcp⟩ := h
  rw [bincodeSer]
  simp only [List.append_assoc]
  rw [bincodeDe, parseSockAddr_enc _ _ hts]
  simp only [someBind]
  rw [parseBytes_enc _ _ hu]
  simp only [someBind]
  rw [parseBytes_enc _ _ hp]
  simp only [someBind]
  rw [parseBytes_enc _ _ hre]
  simp only [someBind]
  rw [parseBytes_enc _ _ hn]
  simp only [someBind]
  rw [parseBytes_enc _ _ hm]
  simp only [someBind]
  rw [parseSockAddr_enc _ _ hcp]
  rfl

/-! ### Byte bounds of the bincode output -/

theorem encU16_bytes (n : Nat) : ∀ x ∈ encU16 n, x < 256 := by
  intro x hx
  simp only [encU16, List.mem_cons, List.not_mem_nil, or_false] at hx
  rcases hx with rfl | rfl <;> omega

theorem encU32_bytes (n : Nat) : ∀ x ∈ encU32 n, x < 256 := by
  intro x hx
  simp only [encU32, List.mem_cons, List.not_mem_nil, or_false] at hx
  rcases hx with rfl | rfl | rfl | rfl <;> omega

theorem encU64_bytes (n : Nat) : ∀ x ∈ encU64 n, x < 256 := by
  intro x hx
  simp only [encU64, List.mem_cons, List.not_mem_nil, or_false] at hx
  rcases hx with rfl | rfl | rfl | rfl | rfl | rfl | rfl | rfl <;> omega

theorem encBytes_bytes (b : List Nat) (h : ∀ x ∈ b, x < 256) :
    ∀ x ∈ encBytes b, x < 256 := by
  intro x hx
  rcases List.mem_append.1 hx with hx | hx
  · exact encU64_bytes _ x hx
  · exact h x hx

theorem encSockAddr_bytes (s : SockAddr) (h : s.Valid) :
    ∀ x ∈ encSockAddr s, x < 256 := by
  match s with
  | .v4 ip port =>
    intro x hx
    simp only [encSockAddr, List.append_assoc, List.mem_append] at hx
    rcases hx with hx | hx | hx
    · exact encU32_bytes 0 x hx
    · exact h.2.1 x hx
    · exact encU16_bytes port x hx
  | .v6 ip port =>
    intro x hx
    simp only [encSockAddr, List.append_assoc, List.mem_append] at hx
    rcases hx with hx | hx | hx
    · exact encU32_bytes 1 x hx
    · exact h.2.1 x hx
    · exact encU16_bytes port x hx

theorem bincodeSer_bytes (d : Data) (h : d.Valid) :
    ∀ x ∈ bincodeSer d, x < 256 := by
  obtain ⟨hts, ⟨hu, -⟩, ⟨hp, -⟩, ⟨hre, -⟩, ⟨hn, -⟩, ⟨hm, -⟩, hcp⟩ := h
  intro x hx
  simp only [bincodeSer, List.append_assoc, List.mem_append] at hx
  rcases hx with hx | hx | hx | hx | hx | hx | hx
  · exact encSockAddr_bytes _ hts x hx
  · exact encBytes_bytes _ hu x hx
  · exact encBytes_bytes _ hp x hx
  · exact encBytes_bytes _ hre x hx
  · exact encBytes_bytes _ hn x hx
  · exact encBytes_bytes _ hm x hx
  · exact encSockAddr_bytes _ hcp x hx

/-- Full codec round trip (shared helper). -/
theorem deserialize_serialize (d : Data) (h : d.Valid) :
    Data.deserialize (Data.serialize d) = some d := by
  rw [Data.serialize, Data.deserialize,
    b64Decode_b64Encode _ (zlibCompress_bytes _ (bincodeSer_bytes d h))]
  simp only [someBind]
  rw [zlibDecompress_zlibCompress]
  simp only [someBind]
  rw [show bincodeSer d = bincodeSer d ++ [] from (List.append_nil _).symm,
    bincodeDe_bincodeSer d h]
  rfl

/-! ## The rendezvous coordinator (`tie`)

The event loop of `tie` embedded as a step function over the loop state
`(addr1, addr2, ready1, ready2, perm_requests_sent)`. One loop iteration
consumes the next item produced by the `select!` over the two TURN client
streams — modelled as a `(side, event)` pair, where `side = true` is the
first session (`c1`). The directives the loop sends
(`MessageToTurnServer::AddPermission`) are accumulated in an output log.
-/

/-- `MessageFromTurnServer` variants that `tie` / `TurnTie` inspect;
`other` stands for the remaining variants, which both handle with a
catch-all arm. -/
inductive MsgFromServer where
  | allocationGranted (relayAddress : SockAddr) (mobility : Bool)
  | redirectedToAlternateServer (alt : SockAddr)
  | permissionCreated (addr : SockAddr)
  | permissionNotCreated (addr : SockAddr)
  | disconnected
  | recvFrom (fromaddr : SockAddr) (buf : List Nat)
  | other
deriving DecidableEq

/-- `MessageToTurnServer` directives that `tie` / `TurnTie` send. -/
inductive MsgToServer where
  | addPermission (addr : SockAddr)
  | sendTo (addr : SockAddr) (buf : List Nat)
deriving DecidableEq

/-- One item obtained from a TURN client stream: a message, a client
error (`Some(Err(e))`), or the end of the stream (`None`). -/
inductive TurnEvent where
  | item (m : MsgFromServer)
  | clientError
  | streamEnd
deriving DecidableEq

/-- The distinct failure kinds of `tie`, one per `bail!`/`?` site. -/
inductive TieError where
  | suddenEnd
  | clientError
  | noMobility
  | redirected
  | unexpectedPermission
  | permissionFailed
  | disconnected
deriving DecidableEq

/-- The local variables of the `tie` event loop. -/
structure TieState where
  addr1 : Option SockAddr
  addr2 : Option SockAddr
  ready1 : Bool
  ready2 : Bool
  permRequestsSent : Bool
deriving DecidableEq

/-- Initial loop state of `tie`. -/
def tieInit : TieState :=
  { addr1 := none, addr2 := none, ready1 := false, ready2 := false,
    permRequestsSent := false }

/-- The `match msg` arms of the `tie` loop (`first` is true when the
message arrived on the first session's stream). -/
def tieHandleMsg (first : Bool) (m : MsgFromServer) (s : TieState) :
    Except TieError TieState :=
  match m with
  | .allocationGranted a mob =>
    if !mob then .error .noMobility
    else if first then .ok { s with addr1 := some a }
    else .ok { s with addr2 := some a }
  | .redirectedToAlternateServer _ => .error .redirected
  | .permissionCreated a =>
    if first ∧ some a = s.addr2 then .ok { s with ready1 := true }
    else if ¬first ∧ some a = s.addr1 then .ok { s with ready2 := true }
    else .error .unexpectedPermission
  | .permissionNotCreated _ => .error .permissionFailed
  | .disconnected => .error .disconnected
  | _ => .ok s

/-- The cross-authorization block of the `tie` loop: once both relay
addresses are recorded and the one-shot flag is unset, set the flag and
send `AddPermission(addr2)` on the first session and
`AddPermission(addr1)` on the second. -/
def tiePermStep (s : TieState) : TieState × List (Bool × MsgToServer) :=
  match s.addr1, s.addr2 with
  | some a1, some a2 =>
    if s.permRequestsSent then (s, [])
    else ({ s with permRequestsSent := true },
      [(true, .addPermission a2), (false, .addPermission a1)])
  | _, _ => (s, [])

/-- One full iteration of the `tie` loop on the next `select!`ed event:
unwrap the stream item (`None` and `Err` are fatal), dispatch on the
message, then run the cross-authorization block. Returns the new state
and the directives sent this iteration. -/
def tieStep (s : TieState) (e : Bool × TurnEvent) :
    Except TieError (TieState × List (Bool × MsgToServer)) :=
  match e.2 with
  | .streamEnd => .error .suddenEnd
  | .clientError => .error .clientError
  | .item m => do
    let s1 ← tieHandleMsg e.1 m s
    .ok (tiePermStep s1)

/-- Result of running the `tie` loop on a finite prefix of the two
streams' events: loop exit with both sides ready, a failure, or the
prefix being exhausted with the loop still waiting. -/
inductive TieOutcome where
  | success (s : TieState)
  | failure (e : TieError)
  | outOfEvents (s : TieState)
deriving DecidableEq

/-- Run the `tie` loop over a list of interleaved events, accumulating
the directives sent. -/
def tieRun (s : TieState) (log : List (Bool × MsgToServer)) :
    List (Bool × TurnEvent) → TieOutcome × List (Bool × MsgToServer)
  | [] => (.outOfEvents s, log)
  | e :: rest =>
    match tieStep s e with
    | .error err => (.failure err, log)
    | .ok (s1, ds) =>
      if s1.ready1 ∧ s1.ready2 then (.success s1, log ++ ds)
      else tieRun s1 (log ++ ds) rest

/-- `ExportedParameters` of the `turnclient` crate, as exported by
`export_state` and consumed by `restore_from_exported_parameters`. -/
structure ExportedParameters where
  realm : List Nat
  nonce : List Nat
  mobility_ticket : List Nat
  permissions : List (SockAddr × Option Nat)
deriving DecidableEq

/-- The code after the `tie` loop: `export_state` on both sessions
(whose results are parameters here) and the construction of the two
descriptors via `Data::new`. The `unwrap` calls on `addr2`/`addr1` are
modelled by returning `none` (a panic) when the address is absent. -/
def tieFinish (turn_server : SockAddr) (username password : List Nat)
    (params1 params2 : ExportedParameters) (s : TieState) :
    Option (Data × Data) :=
  match s.addr1, s.addr2 with
  | some a1, some a2 =>
    some (⟨turn_server, username, password, params1.realm, params1.nonce,
            params1.mobility_ticket, a2⟩,
          ⟨turn_server, username, password, params2.realm, params2.nonce,
            params2.mobility_ticket, a1⟩)
  | _, _ => none

/-! ### Invariants of the `tie` loop -/

theorem okBind {ε α β : Type} (a : α) (f : α → Except ε β) :
    (Except.ok a : Except ε α) >>= f = f a := rfl

theorem errBind {ε α β : Type} (e : ε) (f : α → Except ε β) :
    (Except.error e : Except ε α) >>= f = Except.error e := rfl

/-- The cross-authorization block either does nothing (and then the
one-shot flag being unset means some relay address is still missing), or
fires exactly when both addresses are recorded and the flag is unset. -/
theorem tiePermStep_cases (s : TieState) :
    (tiePermStep s = (s, []) ∧
      (s.permRequestsSent = false → s.addr1 = none ∨ s.addr2 = none)) ∨
    (∃ a1 a2, s.addr1 = some a1 ∧ s.addr2 = some a2 ∧
      s.permRequestsSent = false ∧
      tiePermStep s = ({ s with permRequestsSent := true },
        [(true, .addPermission a2), (false, .addPermission a1)])) := by
  obtain ⟨o1, o2, r1, r2, ps⟩ := s
  match o1, o2 with
  | some a1, some a2 =>
    cases ps with
    | true =>
      left
      exact ⟨rfl, fun hc => absurd hc (by simp)⟩
    | false =>
      right
      exact ⟨a1, a2, rfl, rfl, rfl, rfl⟩
  | some a1, none => left; exact ⟨rfl, fun _ => Or.inr rfl⟩
  | none, some a2 => left; exact ⟨rfl, fun _ => Or.inl rfl⟩
  | none, none => left; exact ⟨rfl, fun _ => Or.inl rfl⟩

/-- What one successful `match msg` dispatch can do to the loop state:
the one-shot flag is untouched; a side being ready keeps implying the
counterpart address is recorded; recorded addresses stay recorded; and a
newly recorded address comes from an `AllocationGranted` (with mobility)
on that side. -/
theorem tieHandleMsg_spec (first : Bool) (m : MsgFromServer) (s s' : TieState)
    (h : tieHandleMsg first m s = .ok s') :
    s'.permRequestsSent = s.permRequestsSent ∧
    ((s.ready1 = true → s.addr2.isSome) → s'.ready1 = true → s'.addr2.isSome) ∧
    ((s.ready2 = true → s.addr1.isSome) → s'.ready2 = true → s'.addr1.isSome) ∧
    (s.addr1.isSome → s'.addr1.isSome) ∧
    (s.addr2.isSome → s'.addr2.isSome) ∧
    (∀ a, s'.addr1 = some a → s.addr1 = some a ∨
      (first = true ∧ m = .allocationGranted a true)) ∧
    (∀ a, s'.addr2 = some a → s.addr2 = some a ∨
      (first = false ∧ m = .allocationGranted a true)) := by
  cases m with
  | allocationGranted a mob =>
    cases mob with
    | false => simp [tieHandleMsg] at h
    | true =>
      cases first with
      | true =>
        simp only [tieHandleMsg, Bool.not_true, Bool.false_eq_true,
          if_false, if_true, Except.ok.injEq] at h
        subst h
        simp_all
      | false =>
        simp only [tieHandleMsg, Bool.not_true, Bool.false_eq_true,
          if_false, Except.ok.injEq] at h
        subst h
        simp_all
  | redirectedToAlternateServer alt => simp [tieHandleMsg] at h
  | permissionCreated a =>
    rw [tieHandleMsg] at h
    split_ifs at h with hc1 hc2
    · obtain ⟨hf, ha⟩ := hc1
      rw [Except.ok.injEq] at h
      subst h
      subst hf
      refine ⟨rfl, ?_, ?_, fun hh => hh, fun hh => hh, ?_, ?_⟩
      · intro _ _; simp [← ha]
      · intro h2 hr; exact h2 hr
      · intro b hb; exact Or.inl hb
      · intro b hb; exact Or.inl hb
    · obtain ⟨hf, ha⟩ := hc2
      rw [Except.ok.injEq] at h
      subst h
      refine ⟨rfl, ?_, ?_, fun hh => hh, fun hh => hh, ?_, ?_⟩
      · intro h1 hr; exact h1 hr
      · intro _ _; simp [← ha]
      · intro b hb; exact Or.inl hb
      · intro b hb; exact Or.inl hb
  | permissionNotCreated a => simp [tieHandleMsg] at h
  | disconnected => simp [tieHandleMsg] at h
  | recvFrom a buf =>
    simp only [tieHandleMsg, Except.ok.injEq] at h
    subst h
    exact ⟨rfl, fun h1 => h1, fun h2 => h2, fun hh => hh, fun hh => hh,
      fun b hb => Or.inl hb, fun b hb => Or.inl hb⟩
  | other =>
    simp only [tieHandleMsg, Except.ok.injEq] at h
    subst h
    exact ⟨rfl, fun h1 => h1, fun h2 => h2, fun hh => hh, fun hh => hh,
      fun b hb => Or.inl hb, fun b hb => Or.inl hb⟩

/-- Loop invariant of `tie`, relating the state to the directives sent so
far: a ready side has the counterpart's relay address recorded; before
the one-shot flag is set nothing was sent and at most one address is
recorded; after it, exactly the one cross-authorization pair was sent. -/
def TieInv (s : TieState) (log : List (Bool × MsgToServer)) : Prop :=
  (s.ready1 = true → s.addr2.isSome) ∧
  (s.ready2 = true → s.addr1.isSome) ∧
  (s.permRequestsSent = false → log = [] ∧ (s.addr1 = none ∨ s.addr2 = none)) ∧
  (s.permRequestsSent = true → ∃ a1 a2,
    log = [(true, .addPermission a2), (false, .addPermission a1)])

theorem tieInit_inv : TieInv tieInit [] := by
  refine ⟨?_, ?_, ?_, ?_⟩ <;> simp [tieInit, TieInv]

/-- The loop invariant is preserved by one loop iteration. -/
theorem tieStep_inv (s : TieState) (log : List (Bool × MsgToServer))
    (e : Bool × TurnEvent) (s1 : TieState) (ds : List (Bool × MsgToServer))
    (hinv : TieInv s log) (hstep : tieStep s e = .ok (s1, ds)) :
    TieInv s1 (log ++ ds) := by
  obtain ⟨h1, h2, h3, h4⟩ := hinv
  obtain ⟨first, ev⟩ := e
  cases ev with
  | streamEnd => cases hstep
  | clientError => cases hstep
  | item m =>
    simp only [tieStep] at hstep
    cases hh : tieHandleMsg first m s with
    | error err => rw [hh, errBind] at hstep; cases hstep
    | ok s2 =>
      rw [hh, okBind, Except.ok.injEq] at hstep
      obtain ⟨hperm, hr1, hr2, hm1, hm2, -, -⟩ :=
        tieHandleMsg_spec first m s s2 hh
      rcases tiePermStep_cases s2 with ⟨heq, hnone⟩ |
        ⟨a1, a2, ha1, ha2, hpf, heq⟩
      · rw [heq] at hstep
        injection hstep with e1 e2
        subst e1
        subst e2
        rw [List.append_nil]
        refine ⟨hr1 h1, hr2 h2, ?_, ?_⟩
        · intro hp0
          obtain ⟨hl, -⟩ := h3 (hperm.symm.trans hp0)
          exact ⟨hl, hnone hp0⟩
        · intro hp1
          exact h4 (hperm.symm.trans hp1)
      · rw [heq] at hstep
        injection hstep with e1 e2
        subst e1
        subst e2
        obtain ⟨hl, -⟩ := h3 (hperm.symm.trans hpf)
        subst hl
        rw [List.nil_append]
        refine ⟨?_, ?_, ?_, ?_⟩
        · intro hr
          exact hr1 h1 hr
        · intro hr
          exact hr2 h2 hr
        · intro hc
          exact Bool.noConfusion hc
        · intro _
          exact ⟨a1, a2, rfl⟩

/-! ### Run-level lemmas for `tie` -/

theorem tieRun_cons_err (s : TieState) (log : List (Bool × MsgToServer))
    (e : Bool × TurnEvent) (rest : List (Bool × TurnEvent)) (err : TieError)
    (h : tieStep s e = .error err) :
    tieRun s log (e :: rest) = (.failure err, log) := by
  rw [tieRun, h]

theorem tieRun_cons_ok (s : TieState) (log : List (Bool × MsgToServer))
    (e : Bool × TurnEvent) (rest : List (Bool × TurnEvent)) (s1 : TieState)
    (ds : List (Bool × MsgToServer)) (h : tieStep s e = .ok (s1, ds)) :
    tieRun s log (e :: rest) =
      if s1.ready1 = true ∧ s1.ready2 = true then (.success s1, log ++ ds)
      else tieRun s1 (log ++ ds) rest := by
  rw [tieRun, h]

/-- The loop invariant holds at every state the `tie` loop can stop in
(success or exhausted event prefix), and a success state has both ready
flags set. -/
theorem tieRun_inv (events : List (Bool × TurnEvent)) :
    ∀ s log s' log', TieInv s log →
    (tieRun s log events = (.success s', log') ∨
     tieRun s log events = (.outOfEvents s', log')) →
    TieInv s' log' ∧
    (tieRun s log events = (.success s', log') →
      s'.ready1 = true ∧ s'.ready2 = true) := by
  induction events with
  | nil =>
    intro s log s' log' hinv h
    have hrun : tieRun s log [] = (.outOfEvents s, log) := rfl
    rcases h with h | h
    · rw [hrun] at h
      injection h with e1 e2
      cases e1
    · rw [hrun] at h
      injection h with e1 e2
      injection e1 with e3
      subst e3
      subst e2
      refine ⟨hinv, fun hc => ?_⟩
      rw [hrun] at hc
      injection hc with e4 e5
      cases e4
  | cons e rest ih =>
    intro s log s' log' hinv h
    cases hst : tieStep s e with
    | error err =>
      rcases h with h | h <;>
      · rw [tieRun_cons_err s log e rest err hst] at h
        injection h with e1 e2
        cases e1
    | ok p =>
      obtain ⟨s1, ds⟩ := p
      have hinv1 := tieStep_inv s log e s1 ds hinv hst
      have hrw := tieRun_cons_ok s log e rest s1 ds hst
      by_cases hr : s1.ready1 = true ∧ s1.ready2 = true
      · rw [if_pos hr] at hrw
        rcases h with h | h
        · rw [hrw] at h
          injection h with e1 e2
          injection e1 with e3
          subst e3
          subst e2
          exact ⟨hinv1, fun _ => hr⟩
        · rw [hrw] at h
          injection h with e1 e2
          cases e1
      · rw [if_neg hr] at hrw
        rw [hrw] at h
        obtain ⟨hi, hsucc⟩ := ih s1 (log ++ ds) s' log' hinv1 h
        refine ⟨hi, fun hc => ?_⟩
        rw [hrw] at hc
        exact hsucc hc

/-- On success, both relay addresses are recorded and the directive log
is exactly the one cross-authorization pair. -/
theorem tieRun_success_spec (events : List (Bool × TurnEvent))
    (s' : TieState) (log' : List (Bool × MsgToServer))
    (h : tieRun tieInit [] events = (.success s', log')) :
    s'.addr1.isSome ∧ s'.addr2.isSome ∧
    ∃ a1 a2, log' = [(true, .addPermission a2), (false, .addPermission a1)] := by
  obtain ⟨⟨h1, h2, h3, h4⟩, hready⟩ :=
    tieRun_inv events tieInit [] s' log' tieInit_inv (Or.inl h)
  obtain ⟨hr1, hr2⟩ := hready h
  have ha2 : s'.addr2.isSome := h1 hr1
  have ha1 : s'.addr1.isSome := h2 hr2
  refine ⟨ha1, ha2, ?_⟩
  cases hp : s'.permRequestsSent with
  | false =>
    obtain ⟨-, hcontr⟩ := h3 hp
    rcases hcontr with hc | hc
    · rw [hc] at ha1; cases ha1
    · rw [hc] at ha2; cases ha2
  | true => exact h4 hp

/-- Where a recorded address can come from: one step records `addr1`
only from an `AllocationGranted` (with mobility) on the first session,
and `addr2` only from one on the second. -/
theorem tieStep_addr_src (s : TieState) (e : Bool × TurnEvent)
    (s1 : TieState) (ds : List (Bool × MsgToServer))
    (h : tieStep s e = .ok (s1, ds)) :
    (∀ a, s1.addr1 = some a → s.addr1 = some a ∨
      e = (true, .item (.allocationGranted a true))) ∧
    (∀ a, s1.addr2 = some a → s.addr2 = some a ∨
      e = (false, .item (.allocationGranted a true))) := by
  obtain ⟨first, ev⟩ := e
  cases ev with
  | streamEnd => cases h
  | clientError => cases h
  | item m =>
    simp only [tieStep] at h
    cases hh : tieHandleMsg first m s with
    | error err => rw [hh, errBind] at h; cases h
    | ok s2 =>
      rw [hh, okBind, Except.ok.injEq] at h
      have haddr : s1.addr1 = s2.addr1 ∧ s1.addr2 = s2.addr2 := by
        rcases tiePermStep_cases s2 with ⟨heq, -⟩ | ⟨a1, a2, -, -, -, heq⟩ <;>
        · rw [heq] at h
          injection h with e1 e2
          subst e1
          exact ⟨rfl, rfl⟩
      obtain ⟨-, -, -, -, -, hsrc1, hsrc2⟩ := tieHandleMsg_spec first m s s2 hh
      constructor
      · intro a ha
        rcases hsrc1 a (haddr.1 ▸ ha) with hold | ⟨hf, hm⟩
        · exact Or.inl hold
        · subst hf; subst hm; exact Or.inr rfl
      · intro a ha
        rcases hsrc2 a (haddr.2 ▸ ha) with hold | ⟨hf, hm⟩
        · exact Or.inl hold
        · subst hf; subst hm; exact Or.inr rfl

/-- On success, every recorded relay address was granted by an
`AllocationGranted` event (with mobility) on the corresponding side. -/
theorem tieRun_granted (events : List (Bool × TurnEvent)) :
    ∀ s log s' log', tieRun s log events = (.success s', log') →
    (∀ a, s'.addr1 = some a → s.addr1 = some a ∨
      (true, TurnEvent.item (.allocationGranted a true)) ∈ events) ∧
    (∀ a, s'.addr2 = some a → s.addr2 = some a ∨
      (false, TurnEvent.item (.allocationGranted a true)) ∈ events) := by
  induction events with
  | nil =>
    intro s log s' log' h
    rw [show tieRun s log [] = (.outOfEvents s, log) from rfl] at h
    injection h with e1 e2
    cases e1
  | cons e rest ih =>
    intro s log s' log' h
    cases hst : tieStep s e with
    | error err =>
      rw [tieRun_cons_err s log e rest err hst] at h
      injection h with e1 e2
      cases e1
    | ok p =>
      obtain ⟨s1, ds⟩ := p
      have hsrc := tieStep_addr_src s e s1 ds hst
      have hrw := tieRun_cons_ok s log e rest s1 ds hst
      by_cases hr : s1.ready1 = true ∧ s1.ready2 = true
      · rw [if_pos hr] at hrw
        rw [hrw] at h
        injection h with e1 e2
        injection e1 with e3
        subst e3
        constructor
        · intro a ha
          rcases hsrc.1 a ha with hold | hev
          · exact Or.inl hold
          · exact Or.inr (by rw [hev]; exact List.mem_cons_self _ _)
        · intro a ha
          rcases hsrc.2 a ha with hold | hev
          · exact Or.inl hold
          · exact Or.inr (by rw [hev]; exact List.mem_cons_self _ _)
      · rw [if_neg hr] at hrw
        rw [hrw] at h
        obtain ⟨ih1, ih2⟩ := ih s1 (log ++ ds) s' log' h
        constructor
        · intro a ha
          rcases ih1 a ha with hmid | hev
          · rcases hsrc.1 a hmid with hold | hev2
            · exact Or.inl hold
            · exact Or.inr (by rw [hev2]; exact List.mem_cons_self _ _)
          · exact Or.inr (List.mem_cons_of_mem _ hev)
        · intro a ha
          rcases ih2 a ha with hmid | hev
          · rcases hsrc.2 a hmid with hold | hev2
            · exact Or.inl hold
            · exact Or.inr (by rw [hev2]; exact List.mem_cons_self _ _)
          · exact Or.inr (List.mem_cons_of_mem _ hev)

/-! ## The channel adapter (`impl Stream for TurnTie`) and `connect`

The underlying `TurnClient` stream delivers a finite list of items, each
`Ok(message)` or `Err(e)` (errors modelled as opaque strings); the list
ending models the underlying `Poll::Ready(None)`.
-/

/-- The filter applied by `poll_next`: the payload of an inbound data
event whose reported origin is the counterpart, `none` for everything
else. -/
def recvFromC (c : SockAddr) : MsgFromServer → Option (List Nat)
  | .recvFrom fromaddr buf => if fromaddr = c then some buf else none
  | _ => none

/-- One `poll_next` call of `impl Stream for TurnTie`: loop over the
underlying items; an error item is yielded; a data item from the
counterpart is yielded; anything else is discarded and the loop
continues; the underlying end of stream ends this stream (`none`). -/
def pollLoop (c : SockAddr) :
    List (Except String MsgFromServer) →
    Option (Except String (List Nat) × List (Except String MsgFromServer))
  | [] => none
  | (Except.error e) :: rest => some (.error e, rest)
  | (Except.ok (.recvFrom fromaddr buf)) :: rest =>
    if fromaddr = c then some (.ok buf, rest) else pollLoop c rest
  | (Except.ok _) :: rest => pollLoop c rest

/-- The full item sequence yielded by repeatedly polling a `TurnTie`
stream over a finite underlying item list. -/
def streamOut (c : SockAddr) :
    List (Except String MsgFromServer) → List (Except String (List Nat))
  | [] => []
  | (Except.error e) :: rest => .error e :: streamOut c rest
  | (Except.ok (.recvFrom fromaddr buf)) :: rest =>
    if fromaddr = c then .ok buf :: streamOut c rest else streamOut c rest
  | (Except.ok _) :: rest => streamOut c rest

/-- `streamOut` is the iteration of single `poll_next` calls. -/
theorem streamOut_eq_pollLoop (c : SockAddr)
    (items : List (Except String MsgFromServer)) :
    streamOut c items =
      match pollLoop c items with
      | none => []
      | some (x, rest) => x :: streamOut c rest := by
  induction items with
  | nil => rfl
  | cons x rest ih =>
    match x with
    | .error e => rfl
    | .ok (.recvFrom a buf) =>
      by_cases hc : a = c
      · rw [streamOut, pollLoop, if_pos hc, if_pos hc]
      · rw [streamOut, pollLoop, if_neg hc, if_neg hc]
        exact ih
    | .ok (.allocationGranted a mob) => exact ih
    | .ok (.redirectedToAlternateServer alt) => exact ih
    | .ok (.permissionCreated a) => exact ih
    | .ok (.permissionNotCreated a) => exact ih
    | .ok .disconnected => exact ih
    | .ok .other => exact ih

/-! ### `connect` -/

/-- How the underlying relay session of a `TurnTie` was built: a fresh
allocation request (`build_and_send_request`) or a resumption from
exported state (`restore_from_exported_parameters`). -/
inductive SessionInit where
  | allocate (server : SockAddr) (username password : List Nat)
      (enableMobility : Bool)
  | restore (server : SockAddr) (username password : List Nat)
      (enableMobility : Bool) (params : ExportedParameters)
deriving DecidableEq

/-- The `TurnTie` value built by `connect`: the underlying session (as
built) plus the fixed counterpart address. -/
structure TurnTie where
  sessionInit : SessionInit
  counterpart : SockAddr
deriving DecidableEq

/-- `connect`: decode the specifier, rebuild `ExportedParameters` with the
descriptor's realm/nonce/mobility ticket and the counterpart pre-seeded
in `permissions`, restore the session (no allocation request), and wrap
it with the counterpart address. -/
def connect (specifier : List Char) : Option TurnTie := do
  let data ← Data.deserialize specifier
  let params : ExportedParameters :=
    ⟨data.realm, data.nonce, data.mobility_ticket, [(data.counterpart, none)]⟩
  some ⟨.restore data.turn_server data.username data.password true params,
    data.counterpart⟩

/-- Modelled from the spec (§6): the relay-session collaborator (the
external `turnclient` crate, not part of this repository) restores a
session from an `ExportedParameters` snapshot "pre-seeding a given peer
address as authorized" — the addresses listed in `permissions` are the
restored session's authorized peers. -/
def ExportedParameters.authorizedPeers (p : ExportedParameters) :
    List SockAddr :=
  p.permissions.map Prod.fst

/-- `Sink::start_send` of `TurnTie`: wrap the payload in a
`SendTo(counterpart, payload)` directive. -/
def TurnTie.startSend (t : TurnTie) (item : List Nat) : MsgToServer :=
  .sendTo t.counterpart item

/-- The whole of `tie`, given the two sessions' exported state (external
to this crate) and the interleaved event list: run the loop, then build
and serialize the two descriptors. -/
def tie (turn_server : SockAddr) (username password : List Nat)
    (params1 params2 : ExportedParameters)
    (events : List (Bool × TurnEvent)) : Option (List Char × List Char) :=
  match tieRun tieInit [] events with
  | (.success s, _) => do
    let (d1, d2) ← tieFinish turn_server username password params1 params2 s
    some (d1.serialize, d2.serialize)
  | _ => none

/-! ### Stream adapter lemmas -/

/-- Over an error-free underlying item list, the adapter yields exactly
the payloads of the counterpart's data events, in order. -/
theorem streamOut_map_ok (c : SockAddr) (msgs : List MsgFromServer) :
    streamOut c (msgs.map Except.ok) =
      (msgs.filterMap (recvFromC c)).map Except.ok := by
  induction msgs with
  | nil => rfl
  | cons m rest ih =>
    match m with
    | .recvFrom a buf =>
      by_cases hc : a = c
      · simp only [List.map_cons, streamOut, if_pos hc,
          List.filterMap_cons, recvFromC, ih]
      · simp only [List.map_cons, streamOut, if_neg hc,
          List.filterMap_cons, recvFromC, if_neg hc, ih]
    | .allocationGranted a mob => exact ih
    | .redirectedToAlternateServer alt => exact ih
    | .permissionCreated a => exact ih
    | .permissionNotCreated a => exact ih
    | .disconnected => exact ih
    | .other => exact ih

/-- An error delivered as the last underlying item is yielded as the last
adapter item. -/
theorem streamOut_append_error (c : SockAddr)
    (items : List (Except String MsgFromServer)) (e : String) :
    streamOut c (items ++ [Except.error e]) =
      streamOut c items ++ [Except.error e] := by
  induction items with
  | nil => rfl
  | cons x rest ih =>
    match x with
    | .error e2 => exact congrArg (List.cons (Except.error e2)) ih
    | .ok (.recvFrom a buf) =>
      by_cases hc : a = c
      · simp only [List.cons_append, streamOut, if_pos hc]
        exact congrArg (List.cons (Except.ok buf)) ih
      · simp only [List.cons_append, streamOut, if_neg hc]
        exact ih
    | .ok (.allocationGranted a mob) => exact ih
    | .ok (.redirectedToAlternateServer alt) => exact ih
    | .ok (.permissionCreated a) => exact ih
    | .ok (.permissionNotCreated a) => exact ih
    | .ok .disconnected => exact ih
    | .ok .other => exact ih

/-- `poll_next` reports end of stream only when the underlying stream's
remaining items were all discarded non-matching messages — never because
of a non-matching event itself. -/
theorem pollLoop_none_spec (c : SockAddr)
    (items : List (Except String MsgFromServer))
    (h : pollLoop c items = none) :
    ∀ x ∈ items, ∃ m, x = Except.ok m ∧ recvFromC c m = none := by
  induction items with
  | nil => intro x hx; cases hx
  | cons y rest ih =>
    match y with
    | .error e => cases h
    | .ok (.recvFrom a buf) =>
      by_cases hc : a = c
      · rw [pollLoop, if_pos hc] at h; cases h
      · rw [pollLoop, if_neg hc] at h
        intro x hx
        rcases List.mem_cons.1 hx with rfl | hx
        · exact ⟨.recvFrom a buf, rfl, by simp [recvFromC, hc]⟩
        · exact ih h x hx
    | .ok (.allocationGranted a mob) =>
      intro x hx
      rcases List.mem_cons.1 hx with rfl | hx
      · exact ⟨.allocationGranted a mob, rfl, rfl⟩
      · exact ih h x hx
    | .ok (.redirectedToAlternateServer alt) =>
      intro x hx
      rcases List.mem_cons.1 hx with rfl | hx
      · exact ⟨.redirectedToAlternateServer alt, rfl, rfl⟩
      · exact ih h x hx
    | .ok (.permissionCreated a) =>
      intro x hx
      rcases List.mem_cons.1 hx with rfl | hx
      · exact ⟨.permissionCreated a, rfl, rfl⟩
      · exact ih h x hx
    | .ok (.permissionNotCreated a) =>
      intro x hx
      rcases List.mem_cons.1 hx with rfl | hx
      · exact ⟨.permissionNotCreated a, rfl, rfl⟩
      · exact ih h x hx
    | .ok .disconnected =>
      intro x hx
      rcases List.mem_cons.1 hx with rfl | hx
      · exact ⟨.disconnected, rfl, rfl⟩
      · exact ih h x hx
    | .ok .other =>
      intro x hx
      rcases List.mem_cons.1 hx with rfl | hx
      · exact ⟨.other, rfl, rfl⟩
      · exact ih h x hx

/-! ## Concrete values used by witnesses and counterexamples -/

def cServer : SockAddr := .v4 [198, 51, 100, 1] 3478

def cAddrA : SockAddr := .v4 [192, 0, 2, 1] 40001

def cAddrB : SockAddr := .v4 [192, 0, 2, 2] 40002

def cU : List Nat := [117]

def cP : List Nat := [112, 119]

def cD : Data :=
  ⟨cServer, cU, cP, [114, 108, 109], [110, 99], [1, 2, 3, 255], cAddrB⟩

def cParams : ExportedParameters := ⟨[114], [110], [9, 9], []⟩

/-- A complete successful rendezvous event interleaving. -/
def cEvents : List (Bool × TurnEvent) :=
  [(true, .item (.allocationGranted cAddrA true)),
   (false, .item (.allocationGranted cAddrB true)),
   (true, .item (.permissionCreated cAddrB)),
   (false, .item (.permissionCreated cAddrA))]

def cState : TieState :=
  ⟨some cAddrA, some cAddrB, true, true, true⟩

def cLog : List (Bool × MsgToServer) :=
  [(true, .addPermission cAddrB), (false, .addPermission cAddrA)]

def cd1 : Data := ⟨cServer, cU, cP, [114], [110], [9, 9], cAddrB⟩

def cState1 : TieState :=
  ⟨some cAddrA, some cAddrB, false, false, true⟩

def cd2 : Data := ⟨cServer, cU, cP, [114], [110], [9, 9], cAddrA⟩

/-! ## Claims -/

/-- C1: for every valid endpoint descriptor D (any relay-server address,
username, password, realm, nonce, arbitrary mobility-ticket byte
sequence, and counterpart address), decoding the encoded text blob
yields a descriptor equal to D field-for-field, including a byte-exact
mobility ticket: `decode(encode(D)) = D`. -/
theorem c1_descriptor_roundtrip (d : Data) (h : d.Valid) :
    Data.deserialize (Data.serialize d) = some d :=
  deserialize_serialize d h

theorem c1_descriptor_roundtrip_witness :
    cD.Valid ∧ Data.deserialize (Data.serialize cD) = some cD :=
  ⟨by decide, c1_descriptor_roundtrip cD (by decide)⟩

/-- C2: whenever `tie` returns successfully, the two descriptors it
produces cross-reference each other's relay address: the first
descriptor's counterpart equals the relay address granted to the second
session, and the second descriptor's counterpart equals the relay
address granted to the first session. -/
theorem c2_descriptor_symmetry (events : List (Bool × TurnEvent))
    (s : TieState) (log : List (Bool × MsgToServer))
    (ts : SockAddr) (u p : List Nat) (params1 params2 : ExportedParameters)
    (d1 d2 : Data)
    (hrun : tieRun tieInit [] events = (.success s, log))
    (hfin : tieFinish ts u p params1 params2 s = some (d1, d2)) :
    ∃ a1 a2, s.addr1 = some a1 ∧ s.addr2 = some a2 ∧
      d1.counterpart = a2 ∧ d2.counterpart = a1 ∧
      (true, TurnEvent.item (.allocationGranted a1 true)) ∈ events ∧
      (false, TurnEvent.item (.allocationGranted a2 true)) ∈ events := by
  obtain ⟨ha1, ha2, -⟩ := tieRun_success_spec events s log hrun
  obtain ⟨a1, ha1e⟩ := Option.isSome_iff_exists.1 ha1
  obtain ⟨a2, ha2e⟩ := Option.isSome_iff_exists.1 ha2
  obtain ⟨hg1, hg2⟩ := tieRun_granted events tieInit [] s log hrun
  simp only [tieFinish, ha1e, ha2e, Option.some.injEq, Prod.mk.injEq] at hfin
  obtain ⟨hd1, hd2⟩ := hfin
  refine ⟨a1, a2, ha1e, ha2e, ?_, ?_, ?_, ?_⟩
  · rw [← hd1]
  · rw [← hd2]
  · rcases hg1 a1 ha1e with hcontr | hmem
    · cases hcontr
    · exact hmem
  · rcases hg2 a2 ha2e with hcontr | hmem
    · cases hcontr
    · exact hmem

theorem c2_descriptor_symmetry_witness :
    ∃ a1 a2, cState.addr1 = some a1 ∧ cState.addr2 = some a2 ∧
      cd1.counterpart = a2 ∧ cd2.counterpart = a1 ∧
      (true, TurnEvent.item (.allocationGranted a1 true)) ∈ cEvents ∧
      (false, TurnEvent.item (.allocationGranted a2 true)) ∈ cEvents :=
  c2_descriptor_symmetry cEvents cState cLog cServer cU cP cParams cParams
    cd1 cd2 (by decide) (by decide)

/-- C3: during one rendezvous run of `tie`, the pair of
cross-authorization directives is issued exactly once: a step emits
directives only by firing the one-shot guard with both relay addresses
recorded (so never before both are known and never a second time), and
every run that reaches success has sent exactly the one pair — for every
interleaving of the two sides' events. -/
theorem c3_cross_authorization_once :
    (∀ s e s1 ds, tieStep s e = .ok (s1, ds) → ds ≠ [] →
      s.permRequestsSent = false ∧ s1.permRequestsSent = true ∧
      ∃ a1 a2, s1.addr1 = some a1 ∧ s1.addr2 = some a2 ∧
        ds = [(true, .addPermission a2), (false, .addPermission a1)]) ∧
    (∀ events s log, tieRun tieInit [] events = (.success s, log) →
      ∃ a1 a2, log = [(true, .addPermission a2), (false, .addPermission a1)]) := by
  constructor
  · intro s e s1 ds hstep hne
    obtain ⟨first, ev⟩ := e
    cases ev with
    | streamEnd => cases hstep
    | clientError => cases hstep
    | item m =>
      simp only [tieStep] at hstep
      cases hh : tieHandleMsg first m s with
      | error err => rw [hh, errBind] at hstep; cases hstep
      | ok s2 =>
        rw [hh, okBind, Except.ok.injEq] at hstep
        obtain ⟨hperm, -, -, -, -, -, -⟩ := tieHandleMsg_spec first m s s2 hh
        rcases tiePermStep_cases s2 with ⟨heq, -⟩ |
          ⟨a1, a2, ha1, ha2, hpf, heq⟩
        · rw [heq] at hstep
          injection hstep with e1 e2
          exact absurd e2.symm hne
        · rw [heq] at hstep
          injection hstep with e1 e2
          subst e1
          subst e2
          exact ⟨hperm.symm.trans hpf, rfl, a1, a2, ha1, ha2, rfl⟩
  · intro events s log hrun
    obtain ⟨-, -, hlog⟩ := tieRun_success_spec events s log hrun
    exact hlog

theorem c3_cross_authorization_once_witness :
    ((⟨some cAddrA, some cAddrB, false, false, false⟩ :
        TieState).permRequestsSent = false ∧
      cState1.permRequestsSent = true ∧
      ∃ a1 a2, cState1.addr1 = some a1 ∧ cState1.addr2 = some a2 ∧
        cLog = [(true, .addPermission a2), (false, .addPermission a1)]) ∧
    (∃ a1 a2,
      cLog = [(true, MsgToServer.addPermission a2),
              (false, MsgToServer.addPermission a1)]) :=
  ⟨c3_cross_authorization_once.1
      ⟨some cAddrA, some cAddrB, false, false, false⟩ (true, .item .other)
      cState1 cLog rfl (by decide),
   c3_cross_authorization_once.2 cEvents cState cLog (by decide)⟩

/-- C4: for a Channel Endpoint with counterpart address C, the inbound
stream yields exactly the subsequence of the underlying session's
inbound-data events whose reported origin equals C, in the underlying
delivery order, for any interleaving of data events from C, data events
from other addresses, and non-data events; non-matching events are
silently discarded with polling continuing rather than the stream
terminating. -/
theorem c4_counterpart_filtering (c : SockAddr) (msgs : List MsgFromServer) :
    streamOut c (msgs.map Except.ok) =
      (msgs.filterMap (recvFromC c)).map Except.ok :=
  streamOut_map_ok c msgs

/-- C5: for every successfully decoded descriptor, `connect` rebuilds the
relay session by resumption from the descriptor's exported state (realm,
nonce, mobility ticket) rather than by a new allocation request, and
pre-registers the descriptor's counterpart as an authorized peer of the
restored session, so a send to the counterpart is issued directly with no
preceding authorization directive. -/
theorem c5_connect_resumes (specifier : List Char) (d : Data)
    (h : Data.deserialize specifier = some d) :
    connect specifier = some
      ⟨.restore d.turn_server d.username d.password true
        ⟨d.realm, d.nonce, d.mobility_ticket, [(d.counterpart, none)]⟩,
       d.counterpart⟩ ∧
    d.counterpart ∈
      (⟨d.realm, d.nonce, d.mobility_ticket, [(d.counterpart, none)]⟩ :
        ExportedParameters).authorizedPeers ∧
    ∀ buf, TurnTie.startSend
        ⟨.restore d.turn_server d.username d.password true
          ⟨d.realm, d.nonce, d.mobility_ticket, [(d.counterpart, none)]⟩,
         d.counterpart⟩ buf = .sendTo d.counterpart buf := by
  refine ⟨?_, ?_, fun buf => rfl⟩
  · rw [connect, h, someBind]
  · simp [ExportedParameters.authorizedPeers]

theorem c5_connect_resumes_witness :
    connect (Data.serialize cD) = some
      ⟨.restore cD.turn_server cD.username cD.password true
        ⟨cD.realm, cD.nonce, cD.mobility_ticket, [(cD.counterpart, none)]⟩,
       cD.counterpart⟩ ∧
    cD.counterpart ∈
      (⟨cD.realm, cD.nonce, cD.mobility_ticket, [(cD.counterpart, none)]⟩ :
        ExportedParameters).authorizedPeers ∧
    ∀ buf, TurnTie.startSend
        ⟨.restore cD.turn_server cD.username cD.password true
          ⟨cD.realm, cD.nonce, cD.mobility_ticket, [(cD.counterpart, none)]⟩,
         cD.counterpart⟩ buf = .sendTo cD.counterpart buf :=
  c5_connect_resumes (Data.serialize cD) cD
    (deserialize_serialize cD (by decide))

/-- C6: a `PermissionCreated(address)` event for one side is accepted
(marking that side ready) if and only if the address equals the
already-recorded relay address of the other side; any other address —
including one arriving while the other side's address is unknown —
makes `tie` fail with the protocol-violation error
(`unexpectedPermission`). -/
theorem c6_confirmation_check (s : TieState) (first : Bool) (a : SockAddr) :
    ((if first = true then s.addr2 = some a else s.addr1 = some a) →
      ∃ s1 ds, tieStep s (first, .item (.permissionCreated a)) =
          .ok (s1, ds) ∧
        (if first = true then s1.ready1 = true else s1.ready2 = true)) ∧
    (¬(if first = true then s.addr2 = some a else s.addr1 = some a) →
      tieStep s (first, .item (.permissionCreated a)) =
        .error .unexpectedPermission) := by
  constructor
  · intro hc
    cases first with
    | true =>
      rw [if_pos rfl] at hc
      have hh : tieHandleMsg true (.permissionCreated a) s =
          .ok { s with ready1 := true } := by
        rw [tieHandleMsg, if_pos ⟨rfl, hc.symm⟩]
      refine ⟨(tiePermStep { s with ready1 := true }).1,
        (tiePermStep { s with ready1 := true }).2, ?_, ?_⟩
      · simp only [tieStep]
        rw [hh, okBind]
      · rw [if_pos rfl]
        rcases tiePermStep_cases { s with ready1 := true } with ⟨heq, -⟩ |
          ⟨a1, a2, -, -, -, heq⟩ <;> rw [heq]
    | false =>
      rw [if_neg (by simp)] at hc
      have hh : tieHandleMsg false (.permissionCreated a) s =
          .ok { s with ready2 := true } := by
        rw [tieHandleMsg, if_neg (fun hcon => Bool.noConfusion hcon.1),
          if_pos ⟨fun hcon => Bool.noConfusion hcon, hc.symm⟩]
      refine ⟨(tiePermStep { s with ready2 := true }).1,
        (tiePermStep { s with ready2 := true }).2, ?_, ?_⟩
      · simp only [tieStep]
        rw [hh, okBind]
      · rw [if_neg (by simp)]
        rcases tiePermStep_cases { s with ready2 := true } with ⟨heq, -⟩ |
          ⟨a1, a2, -, -, -, heq⟩ <;> rw [heq]
  · intro hc
    cases first with
    | true =>
      rw [if_pos rfl] at hc
      have hh : tieHandleMsg true (.permissionCreated a) s =
          .error .unexpectedPermission := by
        rw [tieHandleMsg, if_neg (fun hcon => hc hcon.2.symm),
          if_neg (fun hcon => hcon.1 rfl)]
      simp only [tieStep]
      rw [hh, errBind]
    | false =>
      rw [if_neg (by simp)] at hc
      have hh : tieHandleMsg false (.permissionCreated a) s =
          .error .unexpectedPermission := by
        rw [tieHandleMsg, if_neg (fun hcon => Bool.noConfusion hcon.1),
          if_neg (fun hcon => hc hcon.2.symm)]
      simp only [tieStep]
      rw [hh, errBind]

theorem c6_confirmation_check_witness :
    (∃ s1 ds, tieStep ⟨none, some cAddrB, false, false, false⟩
        (true, .item (.permissionCreated cAddrB)) = .ok (s1, ds) ∧
      (if true = true then s1.ready1 = true else s1.ready2 = true)) ∧
    tieStep tieInit (true, .item (.permissionCreated cAddrB)) =
      .error .unexpectedPermission :=
  ⟨(c6_confirmation_check ⟨none, some cAddrB, false, false, false⟩ true
      cAddrB).1 (by rw [if_pos rfl]),
   (c6_confirmation_check tieInit true cAddrB).2 (by decide)⟩

/-- C7: each of redirect, authorization denied, stream end, disconnect,
and allocation without mobility aborts the whole rendezvous with a
failure, and these error kinds are pairwise distinct. -/
theorem c7_fatal_events (s : TieState) (first : Bool) (alt pa a : SockAddr) :
    tieStep s (first, .item (.redirectedToAlternateServer alt)) =
      .error .redirected ∧
    tieStep s (first, .item (.permissionNotCreated pa)) =
      .error .permissionFailed ∧
    tieStep s (first, .streamEnd) = .error .suddenEnd ∧
    tieStep s (first, .item .disconnected) = .error .disconnected ∧
    tieStep s (first, .item (.allocationGranted a false)) =
      .error .noMobility ∧
    (∀ log e rest err, tieStep s e = .error err →
      tieRun s log (e :: rest) = (.failure err, log)) ∧
    List.Pairwise (fun x y => x ≠ y)
      [TieError.redirected, TieError.permissionFailed, TieError.suddenEnd,
       TieError.disconnected, TieError.noMobility] :=
  ⟨rfl, rfl, rfl, rfl, rfl,
   fun log e rest err h => tieRun_cons_err s log e rest err h, by decide⟩

theorem c7_fatal_events_witness :
    tieRun tieInit [] [(true, TurnEvent.streamEnd)] =
      (.failure .suddenEnd, []) :=
  (c7_fatal_events tieInit true cAddrA cAddrA cAddrA).2.2.2.2.2.1
    [] (true, TurnEvent.streamEnd) [] .suddenEnd rfl

/-- C8: the Channel Endpoint's inbound sequence ends only when the
underlying session's event delivery ends (a `poll_next` returning end of
stream means all remaining underlying items were discarded non-matching
messages), and a terminal error from the underlying session — one
delivered as the underlying stream's final item — is yielded as the
sequence's final item, with nothing after it. -/
theorem c8_stream_end_behavior :
    (∀ (c : SockAddr) (items : List (Except String MsgFromServer))
        (e : String),
      streamOut c (items ++ [Except.error e]) =
        streamOut c items ++ [Except.error e]) ∧
    (∀ (c : SockAddr) (items : List (Except String MsgFromServer)),
      pollLoop c items = none →
      ∀ x ∈ items, ∃ m, x = Except.ok m ∧ recvFromC c m = none) :=
  ⟨streamOut_append_error, pollLoop_none_spec⟩

theorem c8_stream_end_behavior_witness :
    (streamOut cAddrA
        ([Except.ok MsgFromServer.other] ++ [Except.error "e"]) =
      streamOut cAddrA [Except.ok MsgFromServer.other] ++
        [Except.error "e"]) ∧
    (∀ x ∈ ([Except.ok MsgFromServer.other] :
        List (Except String MsgFromServer)),
      ∃ m, x = Except.ok m ∧ recvFromC cAddrA m = none) :=
  ⟨c8_stream_end_behavior.1 cAddrA [Except.ok MsgFromServer.other] "e",
   c8_stream_end_behavior.2 cAddrA [Except.ok MsgFromServer.other] rfl⟩

/-! ### C9: decode failure modes -/

/-- A compressed record that is a valid descriptor serialization followed
by one trailing byte. -/
def badBytes : List Nat := bincodeSer cD ++ [0]

/-- A text blob that is not the encoding of any valid descriptor, yet
decodes successfully (bincode's `deserialize` permits trailing bytes). -/
def badText : List Char := b64Encode (zlibCompress badBytes)

theorem badBytes_bytes : ∀ x ∈ badBytes, x < 256 := by
  intro x hx
  rcases List.mem_append.1 hx with hx | hx
  · exact bincodeSer_bytes cD (by decide) x hx
  · rw [List.mem_singleton] at hx
    omega

/-- C9 counterexample: `badText` is accepted by `Data::deserialize`
(yielding `cD`) although it is not `Data::serialize` of any valid
descriptor — so not every input text that is not the encoding of a valid
descriptor is rejected. -/
theorem c9_counterexample :
    Data.deserialize badText = some cD ∧
    ∀ d : Data, d.Valid → Data.serialize d ≠ badText := by
  have hdecode : Data.deserialize badText = some cD := by
    rw [badText, Data.deserialize,
      b64Decode_b64Encode _ (zlibCompress_bytes _ badBytes_bytes), someBind,
      zlibDecompress_zlibCompress, someBind, badBytes,
      bincodeDe_bincodeSer cD (by decide) [0]]
    rfl
  refine ⟨hdecode, ?_⟩
  intro d hd heq
  have h1 : b64Decode (Data.serialize d) =
      some (zlibCompress (bincodeSer d)) :=
    b64Decode_b64Encode _ (zlibCompress_bytes _ (bincodeSer_bytes d hd))
  have h2 : b64Decode badText = some (zlibCompress badBytes) := by
    rw [badText]
    exact b64Decode_b64Encode _ (zlibCompress_bytes _ badBytes_bytes)
  rw [heq, h2, Option.some.injEq] at h1
  have h3 : bincodeSer d = badBytes := by
    have hz := congrArg zlibDecompress h1
    rw [zlibDecompress_zlibCompress, zlibDecompress_zlibCompress,
      Option.some.injEq] at hz
    exact hz.symm
  have h4 : bincodeDe badBytes = some (d, []) := by
    rw [← h3, show bincodeSer d = bincodeSer d ++ [] from
      (List.append_nil _).symm, bincodeDe_bincodeSer d hd]
  have h5 : bincodeDe badBytes = some (cD, [0]) := by
    rw [badBytes, bincodeDe_bincodeSer cD (by decide) [0]]
  have h6 := h4.symm.trans h5
  rw [Option.some.injEq, Prod.mk.injEq] at h6
  exact absurd h6.2 (by decide)

/-- C9 amended: decode fails, returning no descriptor, exactly in the
three situations — invalid base64 decoding, decompression failure, or
failure to parse the decompressed record; and every successfully decoded
descriptor is the parsed record of the decompressed bytes, possibly
followed by trailing bytes that bincode's `deserialize` permits and
ignores (so a decoded descriptor's field values are always those of the
parsed record, but a text whose record carries trailing bytes is
accepted rather than rejected). -/
theorem c9_decode_failure_modes (t : List Char) :
    (Data.deserialize t = none ↔
      b64Decode t = none ∨
      (∃ z, b64Decode t = some z ∧ (zlibDecompress z = none ∨
        (∃ b, zlibDecompress z = some b ∧ bincodeDe b = none)))) ∧
    (∀ d, Data.deserialize t = some d →
      ∃ z b r, b64Decode t = some z ∧ zlibDecompress z = some b ∧
        bincodeDe b = some (d, r)) := by
  cases hb : b64Decode t with
  | none =>
    constructor
    · constructor
      · intro _
        exact Or.inl rfl
      · intro _
        rw [Data.deserialize, hb]
        rfl
    · intro d hd
      rw [Data.deserialize, hb] at hd
      cases hd
  | some z =>
    cases hz : zlibDecompress z with
    | none =>
      constructor
      · constructor
        · intro _
          exact Or.inr ⟨z, rfl, Or.inl hz⟩
        · intro _
          rw [Data.deserialize, hb, someBind, hz]
          rfl
      · intro d hd
        rw [Data.deserialize, hb, someBind, hz] at hd
        cases hd
    | some b =>
      cases hbc : bincodeDe b with
      | none =>
        constructor
        · constructor
          · intro _
            exact Or.inr ⟨z, rfl, Or.inr ⟨b, hz, hbc⟩⟩
          · intro _
            rw [Data.deserialize, hb, someBind, hz, someBind, hbc]
            rfl
        · intro d hd
          rw [Data.deserialize, hb, someBind, hz, someBind, hbc] at hd
          cases hd
      | some pr =>
        obtain ⟨d0, r⟩ := pr
        have hds : Data.deserialize t = some d0 := by
          rw [Data.deserialize, hb, someBind, hz, someBind, hbc, someBind]
        constructor
        · constructor
          · intro hn
            rw [hds] at hn
            cases hn
          · rintro (hcontr | ⟨z2, hz2, hcontr⟩)
            · cases hcontr
            · rw [Option.some.injEq] at hz2
              subst hz2
              rcases hcontr with hcontr | ⟨b2, hb2, hcontr⟩
              · rw [hz] at hcontr
                cases hcontr
              · rw [hz, Option.some.injEq] at hb2
                subst hb2
                rw [hbc] at hcontr
                cases hcontr
        · intro d hd
          rw [hds, Option.some.injEq] at hd
          subst hd
          exact ⟨z, b, r, rfl, hz, hbc⟩

theorem c9_decode_failure_modes_witness :
    ∃ z b r, b64Decode (Data.serialize cD) = some z ∧
      zlibDecompress z = some b ∧ bincodeDe b = some (cD, r) :=
  (c9_decode_failure_modes (Data.serialize cD)).2 cD
    (deserialize_serialize cD (by decide))

/-! ### C10: the ready invariant and the post-loop unwraps -/

/-- An interleaving in which the second session's allocation is granted
and then the first session's permission is confirmed — leaving side 1
ready while side 1's own relay address is still unrecorded. -/
def c10Events : List (Bool × TurnEvent) :=
  [(false, .item (.allocationGranted cAddrB true)),
   (true, .item (.permissionCreated cAddrB))]

def c10State : TieState := ⟨none, some cAddrB, true, false, false⟩

/-- C10 counterexample: the loop reaches a state with side 1 marked
ready (`ready1 = true`) while side 1's relay address is still
unrecorded (`addr1 = none`) — refuting the claimed invariant that a side
can be marked ready only after both sides' relay addresses have been
recorded. -/
theorem c10_counterexample :
    tieRun tieInit [] c10Events = (.outOfEvents c10State, []) ∧
    c10State.ready1 = true ∧ c10State.addr1 = none :=
  ⟨by decide, rfl, rfl⟩

/-- C10 amended: the loop maintains the invariant that a side can be
marked ready only after the *other* side's relay address has been
recorded; consequently, when the loop exits with both sides ready, both
recorded relay addresses are present and the address extraction while
building the two descriptors cannot panic. -/
theorem c10_ready_invariant_no_panic (events : List (Bool × TurnEvent))
    (s : TieState) (log : List (Bool × MsgToServer))
    (ts : SockAddr) (u p : List Nat) (params1 params2 : ExportedParameters)
    (h : tieRun tieInit [] events = (.success s, log) ∨
         tieRun tieInit [] events = (.outOfEvents s, log)) :
    (s.ready1 = true → s.addr2.isSome) ∧
    (s.ready2 = true → s.addr1.isSome) ∧
    (tieRun tieInit [] events = (.success s, log) →
      s.addr1.isSome ∧ s.addr2.isSome ∧
      (tieFinish ts u p params1 params2 s).isSome) := by
  obtain ⟨⟨h1, h2, -, -⟩, -⟩ :=
    tieRun_inv events tieInit [] s log tieInit_inv h
  refine ⟨h1, h2, fun hs => ?_⟩
  obtain ⟨ha1, ha2, -⟩ := tieRun_success_spec events s log hs
  obtain ⟨a1, ha1e⟩ := Option.isSome_iff_exists.1 ha1
  obtain ⟨a2, ha2e⟩ := Option.isSome_iff_exists.1 ha2
  refine ⟨ha1, ha2, ?_⟩
  simp [tieFinish, ha1e, ha2e]

theorem c10_ready_invariant_no_panic_witness :
    cState.addr1.isSome ∧ cState.addr2.isSome ∧
    (tieFinish cServer cU cP cParams cParams cState).isSome :=
  (c10_ready_invariant_no_panic cEvents cState cLog cServer cU cP cParams
    cParams (Or.inl (by decide))).2.2 (by decide)

end Turntie
